import Mathlib

/-!
Shallow embedding of the SWORDS-template-UP harvesting scripts:

* `src/collect_variables/scripts/howfairis_api/howfairis_variables.py`
  (compliance fetching with the ad hoc retry loop `parse_repo`), and
* `src/collect_variables/scripts/parse_readme/readme_content.py`
  (README fetching, URL parsing, rate-limit handling).

Pure computations are translated into Lean functions.  Interactions with the
network are made explicit: the outcome of each fetch attempt, of each
rate-limit query, and of each HTTP download is a parameter of the embedded
function, so a run of the script is a function of the environment's answers.
Python exceptions are modelled with `Except`: a value `Except.error e`
produced by an embedded function means the corresponding Python code lets an
exception with class name `e` escape that function.  Wall-clock sleeping is
modelled by recording the requested sleep durations (in seconds, as `Int`,
matching Python's `reset - int(time.time())` arithmetic).
-/

/-- Whether `pat` occurs as a contiguous run inside the list: checked at every
suffix with `List.isPrefixOf`. -/
def hasInfixChars (pat : List Char) : List Char → Bool
  | [] => pat.isPrefixOf []
  | c :: rest => pat.isPrefixOf (c :: rest) || hasInfixChars pat rest

/-- Substring test, modelling Python's `needle in haystack`. -/
def containsSubstr (s pat : String) : Bool :=
  hasInfixChars pat.data s.data

/-- From `howfairis_variables.py` (`is_supported_repo`): the URL is accepted
when any supported domain occurs in it as a substring
(`any(domain in url for domain in supported_domains)`). -/
def is_supported_repo (url : String) : Bool :=
  containsSubstr url "github.com" || containsSubstr url "gitlab.com"

/-- The five-boolean compliance result produced by the external howfairis
`Checker` (`checker.check_five_recommendations()`), with the field names used
by the library. -/
structure Compliance where
  repository : Bool
  license : Bool
  registry : Bool
  citation : Bool
  checklist : Bool
deriving DecidableEq, Repr

/-- From `howfairis_variables.py` (`get_howfairis_compliance`): extracts the
five booleans of the checker's result, in the source's fixed order
`(repository, license, registry, citation, checklist)`.  The external
checker's behaviour is the `Compliance` value handed in. -/
def get_howfairis_compliance (compliance : Compliance) :
    Bool × Bool × Bool × Bool × Bool :=
  (compliance.repository, compliance.license, compliance.registry,
   compliance.citation, compliance.checklist)

/-- A cell of a result row: `parse_repo` builds the Python list
`[repo_url, bool, bool, bool, bool, bool]`, which mixes a string and
booleans. -/
inductive Cell where
  | str (s : String)
  | bool (b : Bool)
deriving DecidableEq, Repr

/-- The row built by `parse_repo` on success: `entry = [repo_url]` followed by
`entry.extend(compliance)` where `compliance` is the tuple returned by
`get_howfairis_compliance`. -/
def mkEntry (url : String) (c : Compliance) : List Cell :=
  let t := get_howfairis_compliance c
  [Cell.str url, Cell.bool t.1, Cell.bool t.2.1, Cell.bool t.2.2.1,
   Cell.bool t.2.2.2.1, Cell.bool t.2.2.2.2]

/-- Outcome of one attempt of the body of `parse_repo`'s `while` loop: the
call `get_howfairis_compliance(repo_url)` either returns a compliance value
or raises an exception carrying a message. -/
inductive FetchOutcome where
  | success (compliance : Compliance)
  | failure (msg : String)

/-- Result of running `parse_repo` for a bounded number of loop iterations.
`returned r attempts delays` means the function returned `r` (Python `None`
is `none`) after `attempts` fetch attempts, having requested the sleeps in
`delays` (seconds, in order); `raised e` means an exception of class `e`
escaped `parse_repo`; `running` means the given iteration budget was
exhausted with the loop still running. -/
inductive LoopResult where
  | returned (result : Option (List Cell)) (attempts : Nat) (delays : List Int)
  | raised (e : String)
  | running
deriving DecidableEq, Repr

/-- The host-side error phrase that `parse_repo` treats as a permanent skip. -/
def branchMsg : String :=
  "Something went wrong asking the repo for its default branch"

/-- The `while not request_successful` loop of `parse_repo`
(`howfairis_variables.py`, lines 78-103), run for at most `fuel` iterations.
`out n` is the outcome of the n-th remaining fetch attempt and `rq n` the
answer of the n-th remaining `api.rate_limit.get()["rate"]["reset"]` call
(`Except.error e` when that call raises `e`, which the source does not
catch).  `now` is `int(time.time())`, `i` counts attempts already made and
`ds` accumulates requested sleeps.  On success the source sleeps 1 second
and returns the entry; on an error containing `branchMsg` it returns `None`
at once; on an error containing "TimeoutError" it sleeps 5 seconds and
retries; on any other error it sleeps `reset - now + 2` seconds and
retries. -/
def parseRepoLoop (now : Int) (url : String) :
    Nat → (Nat → FetchOutcome) → (Nat → Except String Int) → Nat → List Int →
    LoopResult
  | 0, _, _, _, _ => .running
  | fuel + 1, out, rq, i, ds =>
    match out 0 with
    | .success c => .returned (some (mkEntry url c)) (i + 1) (ds ++ [1])
    | .failure msg =>
      if containsSubstr msg branchMsg then
        .returned none (i + 1) ds
      else if containsSubstr msg "TimeoutError" then
        parseRepoLoop now url fuel (fun k => out (k + 1)) (fun k => rq (k + 1))
          (i + 1) (ds ++ [5])
      else
        match rq 0 with
        | .error e => .raised e
        | .ok reset =>
          parseRepoLoop now url fuel (fun k => out (k + 1))
            (fun k => rq (k + 1)) (i + 1) (ds ++ [reset - now + 2])

/-- From `howfairis_variables.py` (`parse_repo`): unsupported URLs are
reported and skipped before the loop; otherwise the retry loop runs. -/
def parse_repo (out : Nat → FetchOutcome) (rq : Nat → Except String Int)
    (now : Int) (url : String) (fuel : Nat) : LoopResult :=
  if is_supported_repo url then parseRepoLoop now url fuel out rq 0 []
  else .returned none 0 []

/-- From `readme_content.py` (`check_rate_limit`): the total sleep imposed,
as a function of the rate-limit query's answer `q` (`Except.error` when
`api.rate_limit.get_rate_limit()` raises — every exception is caught) and of
the current time.  `remaining == 0` sleeps `max(0, reset - now) + 1`; a
failing query sleeps 20 minutes; otherwise no sleep. -/
def check_rate_limit_wait (q : Except String (Nat × Int)) (now : Int) : Int :=
  match q with
  | .error _ => 20 * 60
  | .ok (remaining, reset) =>
    if remaining = 0 then max 0 (reset - now) + 1 else 0

/-- From `readme_content.py` (`handle_rate_limit`): the total sleep imposed.
With a response carrying `(X-RateLimit-Remaining, X-RateLimit-Reset)` headers
it sleeps `max(0, reset - now) + 1` when remaining is 0; with no response it
sleeps 20 minutes. -/
def handle_rate_limit_wait (response : Option (Nat × Int)) (now : Int) : Int :=
  match response with
  | some (remaining, reset) =>
    if remaining = 0 then max 0 (reset - now) + 1 else 0
  | none => 20 * 60

/-- Value of a hexadecimal digit, as in Python's percent-escape decoding. -/
def hexVal (c : Char) : Option Nat :=
  if '0' ≤ c ∧ c ≤ '9' then some (c.toNat - '0'.toNat)
  else if 'a' ≤ c ∧ c ≤ 'f' then some (c.toNat - 'a'.toNat + 10)
  else if 'A' ≤ c ∧ c ≤ 'F' then some (c.toNat - 'A'.toNat + 10)
  else none

/-- Modelled from Python's `urllib.parse.unquote`, at the level of ASCII
percent-escapes: a `%` followed by two hex digits becomes the character with
that code, and an invalid escape is left unchanged (multi-byte UTF-8 escape
sequences are outside this model; the inputs considered here contain
none). -/
def unquoteCharsAux : Nat → List Char → List Char
  | 0, l => l
  | _ + 1, [] => []
  | _ + 1, [c] => [c]
  | _ + 1, [c, d] => [c, d]
  | fuel + 1, c :: a :: b :: rest =>
    if c = '%' then
      match hexVal a, hexVal b with
      | some x, some y => Char.ofNat (16 * x + y) :: unquoteCharsAux fuel rest
      | _, _ => '%' :: unquoteCharsAux fuel (a :: b :: rest)
    else c :: unquoteCharsAux fuel (a :: b :: rest)

/-- Decoding entry point: every step of `unquoteCharsAux` consumes at least
one character, so the list's length is enough fuel. -/
def unquoteChars (l : List Char) : List Char :=
  unquoteCharsAux l.length l

/-- The part of the list before the first occurrence of `stop`. -/
def takeUntilChar (stop : Char) (l : List Char) : List Char :=
  l.takeWhile (fun c => c ≠ stop)

/-- The characters after the first `://`, if one occurs. -/
def afterSchemeMark : List Char → Option (List Char)
  | ':' :: '/' :: '/' :: rest => some rest
  | _ :: rest => afterSchemeMark rest
  | [] => none

/-- Modelled from Python's `urllib.parse.urlparse`, restricted to URLs of the
shape `scheme://netloc[/path][?query][#fragment]` (the shape every input of
interest has): the fragment and query are cut off, the network location is
what stands between `://` and the next `/`, and the path is the rest.  When
no `://` occurs the whole remainder is the path and the netloc is empty. -/
def urlparseNetlocPath (url : List Char) : List Char × List Char :=
  let noQuery := takeUntilChar '?' (takeUntilChar '#' url)
  match afterSchemeMark noQuery with
  | none => ([], noQuery)
  | some rest =>
    (rest.takeWhile (fun c => c ≠ '/'), rest.dropWhile (fun c => c ≠ '/'))

/-- Python's `str.strip(c)` for a single character: removes every leading and
trailing occurrence of `c`. -/
def stripChar (c : Char) (l : List Char) : List Char :=
  ((l.dropWhile (fun x => x = c)).reverse.dropWhile (fun x => x = c)).reverse

/-- Python's `str.split(sep)` for a single-character separator: splits at
every occurrence, keeping empty pieces (`"".split('/') == [""]`,
`"a//b".split('/') == ["a", "", "b"]`). -/
def splitOnChar (sep : Char) : List Char → List (List Char)
  | [] => [[]]
  | c :: rest =>
    match splitOnChar sep rest with
    | [] => [[]]
    | h :: t => if c = sep then [] :: h :: t else (c :: h) :: t

/-- From `readme_content.py` (`is_github_url`): Python's
`url.startswith('https://github.com')`, a plain character-prefix test. -/
def is_github_url (url : String) : Bool :=
  ("https://github.com").data.isPrefixOf url.data

/-- The validation and address-extraction section of `get_readme_content`
(`readme_content.py`, lines 127-137): reject anything failing
`is_github_url`; otherwise percent-decode the URL, take the path component,
strip '/' from both ends, split on '/', reject fewer than two pieces, and
return the first two pieces as `(owner, repo)`. -/
def githubOwnerRepo (url : String) : Option (String × String) :=
  if ¬ is_github_url url then none
  else
    let decoded := unquoteChars url.data
    let path := (urlparseNetlocPath decoded).2
    match splitOnChar '/' (stripChar '/' path) with
    | owner :: repo :: _ => some (⟨owner⟩, ⟨repo⟩)
    | _ => none

/-- The sanitization in `get_readme_content` (line 149):
`readme_content.replace(',', ' ').replace(';', ' ')`.  Replacing a single
character by a single character is a character-wise map. -/
def sanitizeReadme (s : String) : String :=
  ⟨s.data.map (fun c => if c = ',' then ' ' else if c = ';' then ' ' else c)⟩

/-- One entry of the repository's top-level directory listing, with the
fields `get_readme_content` and `download_readme_content` read: `name`,
optionally an inline body (the source's base64-encoded `content` field,
carried here in already-decoded form, base64 decoding being a bijection onto
the wire format), and optionally a `download_url`. -/
structure ContentEntry where
  name : String
  content : Option String
  download_url : Option String

/-- Outcome of the HTTP GET `requests.get(content.download_url, timeout=10)`:
a response with a status code and body text, or a `requests.Timeout`. -/
inductive DownloadResult where
  | ok (status : Nat) (text : String)
  | timeout

/-- From `readme_content.py` (`download_readme_content`): prefer the inline
body; otherwise, when a non-empty `download_url` is present, GET it.
`response.raise_for_status()` raises `requests.HTTPError` on a 4xx/5xx
status, and only `Timeout` is caught, so that `HTTPError` escapes the
function — modelled as `Except.error "HTTPError"`.  All other paths return
the text or `None`. -/
def download_readme_content (http : String → DownloadResult)
    (c : ContentEntry) : Except String (Option String) :=
  match c.content with
  | some body => .ok (some body)
  | none =>
    match c.download_url with
    | some u =>
      if u = "" then .ok none
      else
        match http u with
        | .timeout => .ok none
        | .ok status text =>
          if 400 ≤ status ∧ status < 600 then .error "HTTPError"
          else .ok (some text)
    | none => .ok none

/-- Python's `name.lower()` for the ASCII names at hand: a character-wise
`Char.toLower`. -/
def lowerName (name : String) : List Char :=
  name.data.map Char.toLower

/-- The scan loop of `get_readme_content` (lines 144-151): the first entry
whose lower-cased name starts with "readme" and whose downloaded body is
truthy (non-`None` and non-empty) is sanitized and wrapped in the sentinel
markers; an escaping exception from `download_readme_content` propagates. -/
def scanContents (http : String → DownloadResult) :
    List ContentEntry → Except String (Option String)
  | [] => .ok none
  | c :: rest =>
    if ("readme").data.isPrefixOf (lowerName c.name) then
      match download_readme_content http c with
      | .error e => .error e
      | .ok (some rc) =>
        if rc ≠ "" then
          .ok (some ("README_start\n" ++ sanitizeReadme rc ++ "\nREADME_end"))
        else scanContents http rest
      | .ok none => scanContents http rest
    else scanContents http rest

/-- Outcome of `api.repos.get_content(owner, repo, path="")`: a listing, an
HTTP error response, or a timeout. -/
inductive ListingResult where
  | ok (entries : List ContentEntry)
  | httpError (status : Nat) (resp : Option (Nat × Int))
  | timeout

/-- From `readme_content.py` (`get_content_from_github`): the listing on
success; on `HTTPError` the 403 branch waits on the rate limit and every
branch falls through to `return None`; on `Timeout` it prints and returns
`None`. -/
def get_content_from_github (lr : ListingResult) : Option (List ContentEntry) :=
  match lr with
  | .ok entries => some entries
  | .httpError _ _ => none
  | .timeout => none

/-- From `readme_content.py` (`get_readme_content`): validate and parse the
URL (invalid → `None` before any network call), list the repository's
top-level contents, then scan for a README entry. -/
def get_readme_content (http : String → DownloadResult) (lr : ListingResult)
    (url : String) : Except String (Option String) :=
  match githubOwnerRepo url with
  | none => .ok none
  | some _ =>
    match get_content_from_github lr with
    | none => .ok none
    | some contents => scanContents http contents

/-- The per-row body of `process_csv_file` (lines 179-188): GitHub URLs go
through `get_readme_content` with no surrounding `try`, so an exception
escaping it aborts the whole batch; non-GitHub URLs are skipped. -/
def process_row (http : String → DownloadResult) (lr : ListingResult)
    (html_url : String) : Except String (Option String) :=
  if is_github_url html_url then get_readme_content http lr html_url
  else .ok none

/-- An attempt-outcome sequence of `N` failures with message `msg` followed by
successes with compliance `c`: the environment of §8's "N transient timeouts
followed by a success" scenario. -/
def timeoutsThenSuccess (N : Nat) (msg : String) (c : Compliance) :
    Nat → FetchOutcome :=
  fun i => if i < N then .failure msg else .success c

theorem timeoutsThenSuccess_shift (N : Nat) (msg : String) (c : Compliance) :
    (fun k => timeoutsThenSuccess (N + 1) msg c (k + 1)) =
    timeoutsThenSuccess N msg c := by
  funext k
  simp only [timeoutsThenSuccess, Nat.add_lt_add_iff_right]

theorem parseRepoLoop_timeoutsThenSuccess (now : Int) (url msg : String)
    (c : Compliance) (hbr : containsSubstr msg branchMsg = false)
    (htm : containsSubstr msg "TimeoutError" = true) :
    ∀ (N fuel : Nat) (rq : Nat → Except String Int) (i : Nat) (ds : List Int),
      N < fuel →
      parseRepoLoop now url fuel (timeoutsThenSuccess N msg c) rq i ds =
        .returned (some (mkEntry url c)) (i + N + 1)
          (ds ++ (List.replicate N 5 ++ [1])) := by
  intro N
  induction N with
  | zero =>
    intro fuel rq i ds hf
    obtain ⟨m, rfl⟩ : ∃ m, fuel = m + 1 := ⟨fuel - 1, by omega⟩
    rw [parseRepoLoop]
    simp [timeoutsThenSuccess]
  | succ n ih =>
    intro fuel rq i ds hf
    obtain ⟨m, rfl⟩ : ∃ m, fuel = m + 1 := ⟨fuel - 1, by omega⟩
    have h0 : timeoutsThenSuccess (n + 1) msg c 0 = .failure msg := by
      simp [timeoutsThenSuccess]
    rw [parseRepoLoop]
    simp only [h0, hbr, htm, Bool.false_eq_true, if_false, if_true]
    rw [timeoutsThenSuccess_shift]
    rw [ih m (fun k => rq (k + 1)) (i + 1) (ds ++ [5]) (by omega)]
    simp only [List.replicate_succ, List.append_assoc, List.cons_append,
      List.nil_append, LoopResult.returned.injEq]
    exact ⟨trivial, by omega, trivial⟩

theorem parseRepoLoop_allTimeouts (now : Int) (url : String) :
    ∀ (fuel : Nat) (msgs : Nat → String),
      (∀ n, containsSubstr (msgs n) branchMsg = false ∧
            containsSubstr (msgs n) "TimeoutError" = true) →
      ∀ (rq : Nat → Except String Int) (i : Nat) (ds : List Int),
        parseRepoLoop now url fuel (fun n => .failure (msgs n)) rq i ds =
          .running := by
  intro fuel
  induction fuel with
  | zero => intro msgs h rq i ds; rw [parseRepoLoop]
  | succ n ih =>
    intro msgs h rq i ds
    rw [parseRepoLoop]
    simp only [(h 0).1, (h 0).2, Bool.false_eq_true, if_false, if_true]
    exact ih (fun k => msgs (k + 1)) (fun k => (h (k + 1)))
      (fun k => rq (k + 1)) (i + 1) (ds ++ [5])

theorem parseRepoLoop_returned_some (now : Int) (url : String) :
    ∀ (fuel : Nat) (out : Nat → FetchOutcome) (rq : Nat → Except String Int)
      (i : Nat) (ds : List Int) (r : List Cell) (a : Nat) (d : List Int),
      parseRepoLoop now url fuel out rq i ds = .returned (some r) a d →
      ∃ c k, out k = .success c ∧ r = mkEntry url c := by
  intro fuel
  induction fuel with
  | zero => intro out rq i ds r a d h; rw [parseRepoLoop] at h; exact absurd h (by simp)
  | succ n ih =>
    intro out rq i ds r a d h
    rw [parseRepoLoop] at h
    split at h
    next c heq =>
      simp only [LoopResult.returned.injEq, Option.some.injEq] at h
      exact ⟨c, 0, heq, h.1.symm⟩
    next msg heq =>
      split at h
      next => simp at h
      next =>
        split at h
        next =>
          obtain ⟨c, k, hk, hr⟩ :=
            ih (fun k => out (k + 1)) (fun k => rq (k + 1)) (i + 1) (ds ++ [5]) r a d h
          exact ⟨c, k + 1, hk, hr⟩
        next =>
          split at h
          next e hrq => simp at h
          next reset hrq =>
            obtain ⟨c, k, hk, hr⟩ :=
              ih (fun k => out (k + 1)) (fun k => rq (k + 1)) (i + 1)
                (ds ++ [reset - now + 2]) r a d h
            exact ⟨c, k + 1, hk, hr⟩

/-- C3: for every fetch whose first attempt fails with an error whose message
contains "Something went wrong asking the repo for its default branch", the
retry loop returns a skipped outcome (`None`) on that first attempt: exactly
one attempt is made, no delay is requested, and no further attempt occurs. -/
theorem C3_branch_error_skipped_first_attempt
    (out : Nat → FetchOutcome) (rq : Nat → Except String Int) (now : Int)
    (url msg : String) (fuel : Nat)
    (hsup : is_supported_repo url = true)
    (h0 : out 0 = FetchOutcome.failure msg)
    (hbr : containsSubstr msg branchMsg = true) :
    parse_repo out rq now url (fuel + 1) = LoopResult.returned none 1 [] := by
  simp only [parse_repo, if_pos hsup]
  rw [parseRepoLoop]
  simp only [h0, hbr, if_true]

theorem C3_witness :
    parse_repo (fun _ => FetchOutcome.failure branchMsg) (fun _ => Except.ok 0)
      0 "https://github.com/a/b" 1 = LoopResult.returned none 1 [] :=
  C3_branch_error_skipped_first_attempt _ _ 0 _ branchMsg 0 (by decide) rfl
    (by decide)

/-- C4: for every quota state, the wait imposed by `check_rate_limit` and by
`handle_rate_limit` is zero when the remaining quota is positive, and when
the remaining quota is zero it is positive and at least `reset - now` plus a
one-second safety margin. -/
theorem C4_rate_limit_wait_contract (remaining : Nat) (reset now : Int) :
    (0 < remaining →
      check_rate_limit_wait (Except.ok (remaining, reset)) now = 0 ∧
      handle_rate_limit_wait (some (remaining, reset)) now = 0) ∧
    (remaining = 0 →
      0 < check_rate_limit_wait (Except.ok (remaining, reset)) now ∧
      reset - now + 1 ≤ check_rate_limit_wait (Except.ok (remaining, reset)) now ∧
      0 < handle_rate_limit_wait (some (remaining, reset)) now ∧
      reset - now + 1 ≤ handle_rate_limit_wait (some (remaining, reset)) now) := by
  constructor
  · intro hpos
    have h : ¬ remaining = 0 := by omega
    simp [check_rate_limit_wait, handle_rate_limit_wait, h]
  · intro hz
    subst hz
    have hc : check_rate_limit_wait (Except.ok (0, reset)) now =
        max 0 (reset - now) + 1 := rfl
    have hh : handle_rate_limit_wait (some (0, reset)) now =
        max 0 (reset - now) + 1 := rfl
    rw [hc, hh]
    rcases le_total (reset - now) 0 with h | h
    · rw [max_eq_left h]
      exact ⟨by omega, by omega, by omega, by omega⟩
    · rw [max_eq_right h]
      exact ⟨by omega, by omega, by omega, by omega⟩

theorem C4_witness :
    (check_rate_limit_wait (Except.ok (1, 50)) 40 = 0 ∧
      handle_rate_limit_wait (some (1, 50)) 40 = 0) ∧
    (50 : Int) - 40 + 1 ≤ check_rate_limit_wait (Except.ok (0, 50)) 40 :=
  ⟨(C4_rate_limit_wait_contract 1 50 40).1 (by decide),
   ((C4_rate_limit_wait_contract 0 50 40).2 rfl).2.1⟩

/-- C2 counterexample: the code has no maximum-attempts bound.  Under an
outcome sequence in which every attempt raises a timeout-classified error,
the `while` loop of `parse_repo` never terminates: there is no iteration
budget after which it has returned, raised, or skipped — refuting the claim
that the loop terminates for every possible sequence of attempt outcomes. -/
theorem C2_counterexample :
    ¬ ∃ fuel : Nat,
        parse_repo (fun _ => FetchOutcome.failure "TimeoutError")
          (fun _ => Except.ok 0) 0 "https://github.com/a/b" fuel ≠
          LoopResult.running := by
  rintro ⟨fuel, hne⟩
  apply hne
  simp only [parse_repo,
    if_pos (by decide : is_supported_repo "https://github.com/a/b" = true)]
  refine parseRepoLoop_allTimeouts 0 "https://github.com/a/b" fuel
    (fun _ => "TimeoutError") ?_ _ 0 []
  intro n
  show containsSubstr "TimeoutError" branchMsg = false ∧
    containsSubstr "TimeoutError" "TimeoutError" = true
  exact ⟨by decide, by decide⟩

/-- C2 (amended): the retry loop has no maximum-attempts safety bound.  For
every supported URL, whenever every attempt fails with a message that
contains "TimeoutError" and not the default-branch phrase, the loop is still
running after every finite number of iterations, so a single stuck row
retries forever. -/
theorem C2_amended_no_attempt_cap
    (msgs : Nat → String) (rq : Nat → Except String Int) (now : Int)
    (url : String) (fuel : Nat)
    (hsup : is_supported_repo url = true)
    (h : ∀ n, containsSubstr (msgs n) branchMsg = false ∧
              containsSubstr (msgs n) "TimeoutError" = true) :
    parse_repo (fun n => FetchOutcome.failure (msgs n)) rq now url fuel =
      LoopResult.running := by
  simp only [parse_repo, if_pos hsup]
  exact parseRepoLoop_allTimeouts now url fuel msgs h rq 0 []

theorem C2_witness :
    parse_repo (fun _ => FetchOutcome.failure "TimeoutError")
      (fun _ => Except.ok 0) 0 "https://gitlab.com/a/b" 9 =
      LoopResult.running :=
  C2_amended_no_attempt_cap (fun _ => "TimeoutError") _ 0 _ 9 (by decide)
    (by
      intro n
      show containsSubstr "TimeoutError" branchMsg = false ∧
        containsSubstr "TimeoutError" "TimeoutError" = true
      exact ⟨by decide, by decide⟩)

/-- C5 counterexample: on the compliance-fetch retry path, a failing
rate-limit query does not fall back to a cooldown.  With a generic fetch
error on the first attempt and a rate-limit query that raises, `parse_repo`
lets the exception escape (aborting the batch) instead of sleeping. -/
theorem C5_counterexample :
    parse_repo (fun _ => FetchOutcome.failure "boom")
      (fun _ => Except.error "requests.ConnectionError") 0
      "https://github.com/a/b" 5 =
      LoopResult.raised "requests.ConnectionError" := by decide

/-- C5 (amended): the conservative 20-minute cooldown on a failing rate-limit
query holds on the README-fetch path (`check_rate_limit` catches every
exception and sleeps 20 minutes), but not on the compliance-fetch retry
path: there, a generic fetch error followed by a raising
`api.rate_limit.get()` makes the exception escape `parse_repo`. -/
theorem C5_amended_cooldown_readme_path_only :
    (∀ (e : String) (now : Int),
      check_rate_limit_wait (Except.error e) now = 20 * 60) ∧
    (∀ (out : Nat → FetchOutcome) (rq : Nat → Except String Int) (now : Int)
       (url msg e : String) (fuel : Nat),
       is_supported_repo url = true →
       out 0 = FetchOutcome.failure msg →
       containsSubstr msg branchMsg = false →
       containsSubstr msg "TimeoutError" = false →
       rq 0 = Except.error e →
       parse_repo out rq now url (fuel + 1) = LoopResult.raised e) := by
  constructor
  · intro e now; rfl
  · intro out rq now url msg e fuel hsup h0 hbr htm hrq
    simp only [parse_repo, if_pos hsup]
    rw [parseRepoLoop]
    simp only [h0, hbr, htm, hrq, Bool.false_eq_true, if_false]

theorem C5_witness :
    check_rate_limit_wait (Except.error "RateLimitError") 0 = 20 * 60 ∧
    parse_repo (fun _ => FetchOutcome.failure "weird")
      (fun _ => Except.error "ConnErr") 0 "https://gitlab.com/x/y" 1 =
      LoopResult.raised "ConnErr" :=
  ⟨C5_amended_cooldown_readme_path_only.1 "RateLimitError" 0,
   C5_amended_cooldown_readme_path_only.2 _ _ 0 _ "weird" _ 0 (by decide) rfl
     (by decide) (by decide) rfl⟩

/-- C7: given N attempts failing with a timeout-classified message followed
by a success, `parse_repo` returns the success entry after exactly N + 1
attempts, with the N fixed 5-second delays between consecutive attempts
followed by the 1-second post-success pacing sleep. -/
theorem C7_timeouts_then_success
    (N : Nat) (msg : String) (c : Compliance) (rq : Nat → Except String Int)
    (now : Int) (url : String) (fuel : Nat)
    (hsup : is_supported_repo url = true)
    (hbr : containsSubstr msg branchMsg = false)
    (htm : containsSubstr msg "TimeoutError" = true)
    (hfuel : N < fuel) :
    parse_repo (timeoutsThenSuccess N msg c) rq now url fuel =
      LoopResult.returned (some (mkEntry url c)) (N + 1)
        (List.replicate N 5 ++ [1]) := by
  simp only [parse_repo, if_pos hsup]
  have h := parseRepoLoop_timeoutsThenSuccess now url msg c hbr htm N fuel rq
    0 [] hfuel
  simpa using h

theorem C7_witness :
    parse_repo
      (timeoutsThenSuccess 2 "TimeoutError: read timed out"
        ⟨true, true, false, false, true⟩)
      (fun _ => Except.ok 0) 0 "https://github.com/u/v" 3 =
      LoopResult.returned
        (some (mkEntry "https://github.com/u/v" ⟨true, true, false, false, true⟩))
        3 (List.replicate 2 5 ++ [1]) :=
  C7_timeouts_then_success 2 _ _ _ 0 _ 3 (by decide) (by decide) (by decide)
    (by decide)

/-- C10: whenever `parse_repo` returns a non-`None` result, that result is a
list of exactly six cells whose first element is the input URL unchanged and
whose remaining five elements are the compliance booleans of a successful
attempt, in the fixed order (repository, license, registry, citation,
checklist). -/
theorem C10_success_row_shape
    (out : Nat → FetchOutcome) (rq : Nat → Except String Int) (now : Int)
    (url : String) (fuel : Nat) (r : List Cell) (a : Nat) (d : List Int)
    (h : parse_repo out rq now url fuel = LoopResult.returned (some r) a d) :
    r.length = 6 ∧ r.head? = some (Cell.str url) ∧
    ∃ c k, out k = FetchOutcome.success c ∧
      r = [Cell.str url, Cell.bool c.repository, Cell.bool c.license,
           Cell.bool c.registry, Cell.bool c.citation, Cell.bool c.checklist] := by
  rw [parse_repo] at h
  by_cases hsup : is_supported_repo url = true
  · rw [if_pos hsup] at h
    obtain ⟨c, k, hk, hr⟩ :=
      parseRepoLoop_returned_some now url fuel out rq 0 [] r a d h
    subst hr
    refine ⟨by simp [mkEntry, get_howfairis_compliance],
      by simp [mkEntry, get_howfairis_compliance], c, k, hk, ?_⟩
    simp [mkEntry, get_howfairis_compliance]
  · rw [if_neg hsup] at h
    simp at h

theorem C10_witness :
    ([Cell.str "https://github.com/a/b", Cell.bool true, Cell.bool false,
      Cell.bool true, Cell.bool false, Cell.bool true] : List Cell).length = 6 ∧
    ([Cell.str "https://github.com/a/b", Cell.bool true, Cell.bool false,
      Cell.bool true, Cell.bool false, Cell.bool true] : List Cell).head? =
      some (Cell.str "https://github.com/a/b") ∧
    ∃ c k,
      (fun _ : Nat => FetchOutcome.success
        ⟨true, false, true, false, true⟩) k = FetchOutcome.success c ∧
      ([Cell.str "https://github.com/a/b", Cell.bool true, Cell.bool false,
        Cell.bool true, Cell.bool false, Cell.bool true] : List Cell) =
        [Cell.str "https://github.com/a/b", Cell.bool c.repository,
         Cell.bool c.license, Cell.bool c.registry, Cell.bool c.citation,
         Cell.bool c.checklist] :=
  C10_success_row_shape
    (fun _ => FetchOutcome.success ⟨true, false, true, false, true⟩)
    (fun _ => Except.ok 0) 0 "https://github.com/a/b" 1 _ 1 [1] (by decide)

/-- C1: evaluation of the code at the failing input.  A row whose README
directory entry has no inline body and whose `download_url` answers with an
HTTP 404 makes `response.raise_for_status()` raise `requests.HTTPError`;
`download_readme_content` catches only `Timeout`, `get_readme_content` and
the per-row loop of `process_csv_file` catch nothing, so the error from
fetching this row escapes the per-row processing and aborts the batch
instead of being absorbed into a Skip/Fail outcome. -/
theorem C1_download_httperror_escapes_row :
    process_row (fun _ => DownloadResult.ok 404 "Not Found")
      (ListingResult.ok
        [⟨"README.md", none, some "https://raw.example/a/b/README.md"⟩])
      "https://github.com/a/b" = Except.error "HTTPError" := rfl

theorem sanitizeReadme_no_delims (s : String) (c : Char)
    (hc : c ∈ (sanitizeReadme s).data) : c ≠ ',' ∧ c ≠ ';' := by
  obtain ⟨x, _hx, hfx⟩ := List.mem_map.mp hc
  subst hfx
  by_cases h1 : x = ','
  · simp [h1]
  · by_cases h2 : x = ';'
    · simp [h1, h2]
    · simp [h1, h2]

theorem scanContents_some_no_delims (http : String → DownloadResult) :
    ∀ (l : List ContentEntry) (s : String),
      scanContents http l = Except.ok (some s) →
      ',' ∉ s.data ∧ ';' ∉ s.data := by
  intro l
  induction l with
  | nil => intro s h; rw [scanContents] at h; simp at h
  | cons c rest ih =>
    intro s h
    rw [scanContents] at h
    split at h
    · split at h
      next => simp at h
      next =>
        rename_i rc hrc
        split at h
        next =>
          simp only [Except.ok.injEq, Option.some.injEq] at h
          subst h
          rw [String.data_append, String.data_append]
          constructor
          · intro hmem
            rcases List.mem_append.mp hmem with hmem | hmem
            · rcases List.mem_append.mp hmem with hmem | hmem
              · exact absurd hmem (by decide)
              · exact (sanitizeReadme_no_delims rc ',' hmem).1 rfl
            · exact absurd hmem (by decide)
          · intro hmem
            rcases List.mem_append.mp hmem with hmem | hmem
            · rcases List.mem_append.mp hmem with hmem | hmem
              · exact absurd hmem (by decide)
              · exact (sanitizeReadme_no_delims rc ';' hmem).2 rfl
            · exact absurd hmem (by decide)
        next => exact ih s h
      next => exact ih s h
    · exact ih s h

/-- C9: whenever `get_readme_content` returns text rather than `None`, the
returned text contains no raw comma and no raw semicolon: both are replaced
by spaces before the sentinel markers are added, and the markers themselves
contain neither. -/
theorem C9_returned_text_has_no_raw_delimiters
    (http : String → DownloadResult) (lr : ListingResult) (url s : String)
    (h : get_readme_content http lr url = Except.ok (some s)) :
    ',' ∉ s.data ∧ ';' ∉ s.data := by
  rw [get_readme_content] at h
  split at h
  · simp at h
  · split at h
    · simp at h
    · exact scanContents_some_no_delims http _ s h

theorem C9_witness :
    ',' ∉ ("README_start\nhello world\nREADME_end").data ∧
    ';' ∉ ("README_start\nhello world\nREADME_end").data :=
  C9_returned_text_has_no_raw_delimiters (fun _ => DownloadResult.timeout)
    (ListingResult.ok [⟨"README.md", some "hello world", none⟩])
    "https://github.com/a/b" _ rfl

/-- C8 counterexample: the decoded text is not returned unchanged.  For a
listing with exactly one entry named `README.md` whose inline body decodes to
"a,b", `get_readme_content` returns the sentinel-wrapped "a b" — the comma
has been replaced by a space — which differs from the sentinel-wrapped
original text the claim promises. -/
theorem C8_counterexample :
    get_readme_content (fun _ => DownloadResult.timeout)
      (ListingResult.ok [⟨"README.md", some "a,b", none⟩])
      "https://github.com/a/b" =
      Except.ok (some "README_start\na b\nREADME_end") ∧
    "README_start\na b\nREADME_end" ≠ "README_start\na,b\nREADME_end" :=
  ⟨rfl, by decide⟩

/-- C8 (amended): for every directory listing containing exactly one entry
whose name is "README.md" in any letter case, with a non-empty inline body
decoding to text t, fetching the README returns exactly
`README_start\n` ++ t' ++ `\nREADME_end` where t' is t with every comma and
semicolon replaced by a space; in particular t is unchanged whenever it
contains neither character. -/
theorem C8_amended_sentinel_wrapped_sanitized
    (name t : String) (http : String → DownloadResult)
    (hname : lowerName name = ("readme.md").data) (ht : t ≠ "") :
    get_readme_content http (ListingResult.ok [⟨name, some t, none⟩])
      "https://github.com/a/b" =
      Except.ok (some ("README_start\n" ++ sanitizeReadme t ++ "\nREADME_end")) ∧
    ((',' ∉ t.data ∧ ';' ∉ t.data) → sanitizeReadme t = t) := by
  constructor
  · have hgo : githubOwnerRepo "https://github.com/a/b" = some ("a", "b") := rfl
    have hpre : ("readme").data.isPrefixOf (lowerName name) = true := by
      rw [hname]; decide
    simp only [get_readme_content, hgo, get_content_from_github, scanContents,
      hpre, if_true, download_readme_content, if_pos ht]
  · rintro ⟨hc, hs⟩
    have hmap : t.data.map
        (fun c => if c = ',' then ' ' else if c = ';' then ' ' else c) =
        t.data := by
      have h1 : t.data.map
          (fun c => if c = ',' then ' ' else if c = ';' then ' ' else c) =
          t.data.map id := by
        apply List.map_congr_left
        intro a ha
        have ha1 : a ≠ ',' := fun hcon => hc (hcon ▸ ha)
        have ha2 : a ≠ ';' := fun hcon => hs (hcon ▸ ha)
        simp [ha1, ha2]
      rw [h1, List.map_id]
    show (⟨t.data.map _⟩ : String) = t
    rw [hmap]

theorem C8_witness :
    get_readme_content (fun _ => DownloadResult.timeout)
      (ListingResult.ok [⟨"ReadMe.MD", some "hello world", none⟩])
      "https://github.com/a/b" =
      Except.ok (some ("README_start\n" ++ sanitizeReadme "hello world" ++
        "\nREADME_end")) ∧
    ((',' ∉ ("hello world").data ∧ ';' ∉ ("hello world").data) →
      sanitizeReadme "hello world" = "hello world") :=
  C8_amended_sentinel_wrapped_sanitized "ReadMe.MD" "hello world"
    (fun _ => DownloadResult.timeout) (by decide) (by decide)

theorem unquoteCharsAux_no_escape : ∀ (fuel : Nat) (l : List Char),
    '%' ∉ l → unquoteCharsAux fuel l = l := by
  intro fuel
  induction fuel with
  | zero => intro l _; rfl
  | succ n ih =>
    intro l h
    rcases l with - | ⟨c, - | ⟨a, - | ⟨b, rest⟩⟩⟩
    · rfl
    · rfl
    · rfl
    · have hc : ¬ c = '%' :=
        fun he => h (he ▸ List.mem_cons_self c (a :: b :: rest))
      rw [unquoteCharsAux, if_neg hc,
        ih (a :: b :: rest) (fun hm => h (List.mem_cons_of_mem c hm))]

theorem unquoteChars_no_escape (l : List Char) (h : '%' ∉ l) :
    unquoteChars l = l :=
  unquoteCharsAux_no_escape l.length l h

theorem takeUntilChar_eq_self (stop : Char) : ∀ l : List Char, stop ∉ l →
    takeUntilChar stop l = l := by
  intro l
  induction l with
  | nil => intro _; rfl
  | cons c t ih =>
    intro h
    have hc : c ≠ stop := fun he => h (he ▸ List.mem_cons_self c t)
    have ht := ih (fun hm => h (List.mem_cons_of_mem c hm))
    simp only [takeUntilChar] at ht ⊢
    rw [List.takeWhile_cons, if_pos (by simp [hc]), ht]

theorem dropWhileChar_cons_neg {p : Char → Bool} (a : Char) (t : List Char)
    (h : p a = false) : List.dropWhile p (a :: t) = a :: t := by
  simp [List.dropWhile_cons, h]

theorem splitOnChar_ne_nil (sep : Char) (l : List Char) :
    splitOnChar sep l ≠ [] := by
  cases l with
  | nil => simp [splitOnChar]
  | cons c t =>
    rw [splitOnChar]
    rcases splitOnChar sep t with - | ⟨h', t'⟩
    · simp
    · by_cases hcs : c = sep <;> simp [hcs]

theorem splitOnChar_not_mem (sep : Char) : ∀ l : List Char, sep ∉ l →
    splitOnChar sep l = [l] := by
  intro l
  induction l with
  | nil => intro _; rfl
  | cons c t ih =>
    intro h
    have hc : ¬ c = sep := fun he => h (he ▸ List.mem_cons_self c t)
    rw [splitOnChar, ih (fun hm => h (List.mem_cons_of_mem c hm))]
    simp [hc]

theorem splitOnChar_append (sep : Char) : ∀ (xs ys : List Char), sep ∉ xs →
    splitOnChar sep (xs ++ sep :: ys) = xs :: splitOnChar sep ys := by
  intro xs
  induction xs with
  | nil =>
    intro ys _
    show splitOnChar sep (sep :: ys) = [] :: splitOnChar sep ys
    rw [splitOnChar]
    cases hsp : splitOnChar sep ys with
    | nil => exact absurd hsp (splitOnChar_ne_nil sep ys)
    | cons h' t' => simp
  | cons x xs ih =>
    intro ys h
    have hx : ¬ x = sep := fun he => h (he ▸ List.mem_cons_self x xs)
    show splitOnChar sep (x :: (xs ++ sep :: ys)) = (x :: xs) :: splitOnChar sep ys
    rw [splitOnChar, ih ys (fun hm => h (List.mem_cons_of_mem x hm))]
    simp [hx]

theorem stripChar_slash (ol rl : List Char) (o0 : Char) (ot : List Char)
    (hodata : ol = o0 :: ot) (ho0 : ¬ o0 = '/')
    (r0 : Char) (rt : List Char) (hrrev : rl.reverse = r0 :: rt)
    (hr0 : ¬ r0 = '/') :
    stripChar '/' ('/' :: (ol ++ '/' :: rl)) = ol ++ '/' :: rl := by
  unfold stripChar
  have hlead : List.dropWhile (fun x => x = '/') ('/' :: (ol ++ '/' :: rl)) =
      ol ++ '/' :: rl := by
    rw [List.dropWhile_cons, if_pos (by simp), hodata]
    show List.dropWhile (fun x => x = '/') (o0 :: (ot ++ '/' :: rl)) = _
    rw [dropWhileChar_cons_neg _ _ (by simp [ho0])]
    rfl
  rw [hlead]
  have hrev : (ol ++ '/' :: rl).reverse = (r0 :: rt) ++ ('/' :: ol.reverse) := by
    rw [List.reverse_append, List.reverse_cons, hrrev]
    simp [List.append_assoc]
  rw [hrev]
  show (List.dropWhile (fun x => x = '/')
    (r0 :: (rt ++ '/' :: ol.reverse))).reverse = _
  rw [dropWhileChar_cons_neg _ _ (by simp [hr0])]
  rw [show r0 :: (rt ++ '/' :: ol.reverse) =
    (r0 :: rt) ++ ('/' :: ol.reverse) from rfl, ← hrev, List.reverse_reverse]

theorem githubOwnerRepo_eq_of_valid (url : String)
    (h : is_github_url url = true) :
    githubOwnerRepo url =
      match splitOnChar '/' (stripChar '/'
          ((urlparseNetlocPath (unquoteChars url.data)).2)) with
      | owner :: repo :: _ => some (⟨owner⟩, ⟨repo⟩)
      | _ => none := by
  unfold githubOwnerRepo
  rw [h]
  simp

/-- C6 counterexample: the host check is not a host allow-list.  The URL
`https://github.community/x/y` has host `github.community`, which is neither
`github.com` nor `gitlab.com`, yet `is_github_url` accepts it (string-prefix
test) and the parser extracts `(x, y)` instead of returning Invalid; likewise
`is_supported_repo` accepts a URL whose host is `evil.example` merely because
`github.com` occurs in its path. -/
theorem C6_counterexample :
    is_github_url "https://github.community/x/y" = true ∧
    githubOwnerRepo "https://github.community/x/y" = some ("x", "y") ∧
    (urlparseNetlocPath (unquoteChars ("https://github.community/x/y").data)).1 =
      ("github.community").data ∧
    ("github.community" : String) ≠ "github.com" ∧
    ("github.community" : String) ≠ "gitlab.com" ∧
    is_supported_repo "https://evil.example/wiki/github.com-mirrors" = true ∧
    (urlparseNetlocPath
      (unquoteChars ("https://evil.example/wiki/github.com-mirrors").data)).1 =
      ("evil.example").data := by decide

/-- C6 (amended): the parser's acceptance test is a string-prefix test
(`startswith('https://github.com')`), not a host allow-list, so some hosts
outside the allow-list are accepted.  For accepted URLs of the shape
`https://github.com/owner/repo` (owner and repo non-empty and free of the
URL metacharacters `/ % ? #`), the parser extracts exactly `(owner, repo)`,
the first two components of the '/'-split of the percent-decoded,
slash-stripped path; every URL failing the prefix test, and every accepted
URL whose split path has fewer than two components, yields Invalid (`None`);
percent-decoding is applied before splitting. -/
theorem C6_amended_prefix_test_and_segments :
    (∀ url : String, is_github_url url = false → githubOwnerRepo url = none) ∧
    (∀ owner repo : String, owner ≠ "" → repo ≠ "" →
      (∀ c ∈ owner.data, c ≠ '/' ∧ c ≠ '%' ∧ c ≠ '?' ∧ c ≠ '#') →
      (∀ c ∈ repo.data, c ≠ '/' ∧ c ≠ '%' ∧ c ≠ '?' ∧ c ≠ '#') →
      githubOwnerRepo ("https://github.com/" ++ owner ++ "/" ++ repo) =
        some (owner, repo)) ∧
    (∀ url : String,
      (splitOnChar '/' (stripChar '/'
        ((urlparseNetlocPath (unquoteChars url.data)).2))).length < 2 →
      githubOwnerRepo url = none) ∧
    githubOwnerRepo "https://github.com/a%2Fb/c" = some ("a", "b") := by
  refine ⟨?_, ?_, ?_, by decide⟩
  · intro url h
    unfold githubOwnerRepo
    rw [h]
    simp
  · intro owner repo ho hr hoc hrc
    have hod : owner.data ≠ [] := fun he => ho (String.ext_iff.mpr he)
    have hrd : repo.data ≠ [] := fun he => hr (String.ext_iff.mpr he)
    obtain ⟨o0, ot, hodata⟩ : ∃ c t, owner.data = c :: t := by
      cases hd : owner.data with
      | nil => exact absurd hd hod
      | cons c t => exact ⟨c, t, rfl⟩
    obtain ⟨r0, rt, hrrev⟩ : ∃ c t, repo.data.reverse = c :: t := by
      cases hd : repo.data.reverse with
      | nil => rw [List.reverse_eq_nil_iff] at hd; exact absurd hd hrd
      | cons c t => exact ⟨c, t, rfl⟩
    have hdata : ("https://github.com/" ++ owner ++ "/" ++ repo).data =
        ("https://github.com/").data ++ (owner.data ++ '/' :: repo.data) := by
      rw [String.data_append, String.data_append, String.data_append,
        List.append_assoc, List.append_assoc]
      rfl
    have hmem : ∀ ch : Char,
        ch ∈ ("https://github.com/" ++ owner ++ "/" ++ repo).data →
        ch ∈ ("https://github.com/").data ∨ ch ∈ owner.data ∨ ch = '/' ∨
          ch ∈ repo.data := by
      intro ch hch
      rw [hdata] at hch
      rcases List.mem_append.mp hch with h1 | h1
      · exact Or.inl h1
      rcases List.mem_append.mp h1 with h2 | h2
      · exact Or.inr (Or.inl h2)
      rcases List.mem_cons.mp h2 with h3 | h3
      · exact Or.inr (Or.inr (Or.inl h3))
      · exact Or.inr (Or.inr (Or.inr h3))
    have hnoP : '%' ∉ ("https://github.com/" ++ owner ++ "/" ++ repo).data := by
      intro hch
      rcases hmem '%' hch with h | h | h | h
      · exact absurd h (by decide)
      · exact (hoc '%' h).2.1 rfl
      · exact absurd h (by decide)
      · exact (hrc '%' h).2.1 rfl
    have hnoH : '#' ∉ ("https://github.com/" ++ owner ++ "/" ++ repo).data := by
      intro hch
      rcases hmem '#' hch with h | h | h | h
      · exact absurd h (by decide)
      · exact (hoc '#' h).2.2.2 rfl
      · exact absurd h (by decide)
      · exact (hrc '#' h).2.2.2 rfl
    have hnoQ : '?' ∉ ("https://github.com/" ++ owner ++ "/" ++ repo).data := by
      intro hch
      rcases hmem '?' hch with h | h | h | h
      · exact absurd h (by decide)
      · exact (hoc '?' h).2.2.1 rfl
      · exact absurd h (by decide)
      · exact (hrc '?' h).2.2.1 rfl
    have hdec : unquoteChars ("https://github.com/" ++ owner ++ "/" ++ repo).data =
        ("https://github.com/" ++ owner ++ "/" ++ repo).data :=
      unquoteChars_no_escape _ hnoP
    have ht1 : takeUntilChar '#' ("https://github.com/" ++ owner ++ "/" ++ repo).data =
        ("https://github.com/" ++ owner ++ "/" ++ repo).data :=
      takeUntilChar_eq_self _ _ hnoH
    have ht2 : takeUntilChar '?' ("https://github.com/" ++ owner ++ "/" ++ repo).data =
        ("https://github.com/" ++ owner ++ "/" ++ repo).data :=
      takeUntilChar_eq_self _ _ hnoQ
    have hup : urlparseNetlocPath
        (unquoteChars ("https://github.com/" ++ owner ++ "/" ++ repo).data) =
        (("github.com").data, '/' :: (owner.data ++ '/' :: repo.data)) := by
      rw [hdec]
      unfold urlparseNetlocPath
      rw [ht1, ht2, hdata]
      rfl
    have ho0 : o0 ∈ owner.data := by rw [hodata]; exact List.mem_cons_self o0 ot
    have hr0 : r0 ∈ repo.data := by
      have : r0 ∈ repo.data.reverse := by
        rw [hrrev]; exact List.mem_cons_self r0 rt
      exact List.mem_reverse.mp this
    have hstrip : stripChar '/' ('/' :: (owner.data ++ '/' :: repo.data)) =
        owner.data ++ '/' :: repo.data :=
      stripChar_slash owner.data repo.data o0 ot hodata ((hoc o0 ho0).1)
        r0 rt hrrev ((hrc r0 hr0).1)
    have hsplit : splitOnChar '/' (owner.data ++ '/' :: repo.data) =
        [owner.data, repo.data] := by
      rw [splitOnChar_append '/' owner.data repo.data
        (fun hm => (hoc '/' hm).1 rfl)]
      rw [splitOnChar_not_mem '/' repo.data (fun hm => (hrc '/' hm).1 rfl)]
    have hgit : is_github_url ("https://github.com/" ++ owner ++ "/" ++ repo) =
        true := by
      show ("https://github.com").data.isPrefixOf _ = true
      exact List.isPrefixOf_iff_prefix.mpr
        ⟨'/' :: (owner.data ++ '/' :: repo.data), by rw [hdata]; rfl⟩
    rw [githubOwnerRepo_eq_of_valid _ hgit, hup]
    dsimp only
    rw [hstrip, hsplit]
  · intro url hlen
    by_cases hg : is_github_url url = true
    · rw [githubOwnerRepo_eq_of_valid url hg]
      cases hsp : splitOnChar '/' (stripChar '/'
          ((urlparseNetlocPath (unquoteChars url.data)).2)) with
      | nil => rfl
      | cons a t =>
        cases t with
        | nil => rfl
        | cons b t2 =>
          rw [hsp] at hlen
          simp only [List.length_cons] at hlen
          exact absurd hlen (by omega)
    · unfold githubOwnerRepo
      rw [Bool.not_eq_true] at hg
      rw [hg]
      simp

theorem C6_witness :
    githubOwnerRepo "http://example.com/a/b" = none ∧
    githubOwnerRepo ("https://github.com/" ++ "octocat" ++ "/" ++ "hello") =
      some ("octocat", "hello") ∧
    githubOwnerRepo "https://github.com" = none :=
  ⟨C6_amended_prefix_test_and_segments.1 "http://example.com/a/b" (by decide),
   C6_amended_prefix_test_and_segments.2.1 "octocat" "hello" (by decide)
     (by decide) (by decide) (by decide),
   C6_amended_prefix_test_and_segments.2.2.1 "https://github.com" (by decide)⟩
